import Mathlib

set_option maxRecDepth 10000

/-!
Verification of the scholarship-pricing logic of `bolsao.py`.

Monetary amounts and discount fractions are modelled as rationals (`ℚ`);
Python decimal literals such as `0.30` or `2820.77` denote the exact
corresponding rationals.  Integer scores are modelled as `ℤ`.  Python
dictionaries holding reference data become association lists, looked up
with `List.find?` and the same default values the source uses.
-/

namespace Bolsao

/-- The apostrophe character (code point 39), used by the sheet-title
escaping logic and by the error-message strings of the source. -/
def aposC : Char := Char.ofNat 39

/-- The apostrophe as a one-character string. -/
def aposS : String := String.mk [aposC]

/-- `BOLSA_MAP` from the source: total correct answers (0..24) to the
discount fraction of the general table. -/
def BOLSA_MAP : List (ℤ × ℚ) :=
  [(0, 0.30), (1, 0.30), (2, 0.30), (3, 0.35), (4, 0.40), (5, 0.40),
   (6, 0.44), (7, 0.45), (8, 0.46), (9, 0.47), (10, 0.48), (11, 0.49),
   (12, 0.50), (13, 0.51), (14, 0.52), (15, 0.53), (16, 0.54), (17, 0.55),
   (18, 0.56), (19, 0.57), (20, 0.60), (21, 0.65), (22, 0.70), (23, 0.80),
   (24, 1.00)]

/-- One entry of the `TUITION` dictionary: annual value and the base
13th-installment value. -/
structure TuitionEntry where
  anuidade : ℚ
  parcela13 : ℚ
deriving DecidableEq

/-- `TUITION` from the source: program name to its tuition reference data. -/
def TUITION : List (String × TuitionEntry) :=
  [("1ª e 2ª Série EM Militar", ⟨36670.00, 2820.77⟩),
   ("1ª e 2ª Série EM Vestibular", ⟨36670.00, 2820.77⟩),
   ("1º ao 5º Ano", ⟨26654.00, 2050.31⟩),
   ("3ª Série (PV/PM)", ⟨36812.00, 2831.69⟩),
   ("3ª Série EM Medicina", ⟨36812.00, 2831.69⟩),
   ("6º ao 8º Ano", ⟨31354.00, 2411.85⟩),
   ("9º Ano EF II Militar", ⟨34146.00, 2626.62⟩),
   ("9º Ano EF II Vestibular", ⟨34146.00, 2626.62⟩),
   ("AFA/EN/EFOMM", ⟨14802.00, 1138.62⟩),
   ("CN/EPCAr", ⟨8863.00, 681.77⟩),
   ("ESA", ⟨7145.00, 549.62⟩),
   ("EsPCEx", ⟨14802.00, 1138.62⟩),
   ("IME/ITA", ⟨14802.00, 1138.62⟩),
   ("Medicina (Pré)", ⟨14802.00, 1138.62⟩),
   ("Pré-Vestibular", ⟨14802.00, 1138.62⟩)]

/-- Lookup in `TUITION`, i.e. `TUITION.get(serie_modalidade, {})` of the
source (`none` plays the role of the empty dict default). -/
def lookupTuition (serie_modalidade : String) : Option TuitionEntry :=
  (TUITION.find? (fun p => p.1 == serie_modalidade)).map (fun p => p.2)

/-- `DESCONTOS_MAXIMOS_POR_UNIDADE` from the source: campus name to the
maximum allowable discount fraction. -/
def DESCONTOS_MAXIMOS_POR_UNIDADE : List (String × ℚ) :=
  [("RETIRO DOS ARTISTAS", 0.50), ("CAMPO GRANDE", 0.6320),
   ("ROCHA MIRANDA", 0.6606), ("TAQUARA", 0.6755), ("NOVA IGUACU", 0.6700),
   ("DUQUE DE CAXIAS", 0.6823), ("BANGU", 0.6806), ("MADUREIRA", 0.7032),
   ("TIJUCA", 0.6800), ("SÃO JOÃO DE MERITI", 0.7197)]

/-- Lookup of a campus ceiling, i.e.
`DESCONTOS_MAXIMOS_POR_UNIDADE.get(unidade, 0)` without the default. -/
def lookupCeiling (unidade : String) : Option ℚ :=
  (DESCONTOS_MAXIMOS_POR_UNIDADE.find? (fun p => p.1 == unidade)).map (fun p => p.2)

/-- Round a rational to the nearest integer, ties to even.  Models the
behaviour of Python `round` at the level of exact decimal values (the
source applies it to binary floats; on the table values at hand the
results agree, and ties do not arise). -/
def rndHalfEven (x : ℚ) : ℤ :=
  let f : ℤ := ⌊x⌋
  let r : ℚ := x - f
  if r < 1/2 then f
  else if 1/2 < r then f + 1
  else if f % 2 = 0 then f else f + 1

/-- `round(x, 2)` of the source: round to two decimal places. -/
def round2 (x : ℚ) : ℚ := (rndHalfEven (x * 100) : ℚ) / 100

/-- The tuition breakdown returned by `precos_2026` (a three-key dict in
the source, in the order `primeira_cota`, `parcela_mensal`, `anuidade`). -/
structure Breakdown where
  primeira_cota : ℚ
  parcela_mensal : ℚ
  anuidade : ℚ
deriving DecidableEq

/-- `precos_2026` from the source: derive the 2026 price breakdown of a
program from its base 13th-installment value. -/
def precos_2026 (serie_modalidade : String) : Breakdown :=
  match lookupTuition serie_modalidade with
  | none => ⟨0.0, 0.0, 0.0⟩
  | some base =>
    let parcela_2026_do_dict := base.parcela13
    if parcela_2026_do_dict ≤ 0 then ⟨0.0, 0.0, 0.0⟩
    else
      let parcela_2025 := round2 (parcela_2026_do_dict / 1.10)
      let primeira_cota := parcela_2025
      let parcela_mensal := round2 (parcela_2025 * 1.093)
      let anuidade := round2 (primeira_cota + 12 * parcela_mensal)
      ⟨primeira_cota, parcela_mensal, anuidade⟩

/-- `calcula_bolsa` from the source: exam score to scholarship fraction,
with the special rule for the program `1º ao 5º Ano`. -/
def calcula_bolsa (acertos : ℤ) (serie_modalidade : Option String := none) : ℚ :=
  if serie_modalidade = some "1º ao 5º Ano" then
    let a := max 0 (min acertos 10)
    if a = 0 then 0.0
    else if 1 ≤ a ∧ a ≤ 3 then 0.30
    else if 4 ≤ a ∧ a ≤ 5 then 0.50
    else if 6 ≤ a ∧ a ≤ 8 then 0.60
    else 0.65
  else
    let ac := max 0 (min acertos 24)
    ((BOLSA_MAP.find? (fun p => p.1 == ac)).map (fun p => p.2)).getD 0.30

/-- Discount application as performed at the `aba_carta` call site of the
source: each monetary field of the breakdown is multiplied by
`(1 - pct)`. -/
def apply_discount (precos : Breakdown) (pct : ℚ) : Breakdown :=
  { primeira_cota := precos.primeira_cota * (1 - pct),
    parcela_mensal := precos.parcela_mensal * (1 - pct),
    anuidade := precos.anuidade * (1 - pct) }

/-- `calcula_valor_minimo` from the source: minimum negotiable monthly
value of a campus/program pair. -/
def calcula_valor_minimo (unidade serie_modalidade : String) : ℚ :=
  let desconto_maximo := (lookupCeiling unidade).getD 0
  let precos := precos_2026 serie_modalidade
  let valor_anuidade_integral := precos.anuidade
  if 0 < valor_anuidade_integral ∧ 0 < desconto_maximo then
    let valor_minimo_anual := valor_anuidade_integral * (1 - desconto_maximo)
    valor_minimo_anual / 12
  else 0.0

/-- Concrete evaluation of `precos_2026` on the program `ESA`
(base 13th installment 549.62). -/
theorem precos_2026_ESA_eval : precos_2026 "ESA" = ⟨499.65, 546.12, 7053.09⟩ := by
  have h : lookupTuition "ESA" = some ⟨7145.00, 549.62⟩ := by with_unfolding_all rfl
  unfold precos_2026
  rw [h]
  dsimp only
  rw [if_neg (by norm_num)]
  simp only [Breakdown.mk.injEq]
  refine ⟨?_, ?_, ?_⟩ <;> norm_num [round2, rndHalfEven]

/-- On any program other than the special one, `calcula_bolsa` computes the
general-table lookup, so the choice of (non-special) program is irrelevant. -/
theorem calcula_bolsa_of_ne_special (acertos : ℤ) (serie : Option String)
    (h : serie ≠ some "1º ao 5º Ano") :
    calcula_bolsa acertos serie = calcula_bolsa acertos none := by
  unfold calcula_bolsa
  rw [if_neg h, if_neg (by simp)]

/-- C1: for the program `1º ao 5º Ano`, `calcula_bolsa` first clamps the
score to `[0, 10]` and then returns the step function
`{0 ↦ 0, 1–3 ↦ 0.30, 4–5 ↦ 0.50, 6–8 ↦ 0.60, 9–10 ↦ 0.65}`, for every
integer input (negatives clamp to 0, inputs above 10 clamp to 10). -/
theorem calcula_bolsa_ef1_step (acertos : ℤ) :
    calcula_bolsa acertos (some "1º ao 5º Ano") =
      (if max 0 (min acertos 10) = 0 then 0.0
       else if max 0 (min acertos 10) ≤ 3 then 0.30
       else if max 0 (min acertos 10) ≤ 5 then 0.50
       else if max 0 (min acertos 10) ≤ 8 then 0.60
       else 0.65) := by
  unfold calcula_bolsa
  rw [if_pos rfl]
  dsimp only
  have hlo : 0 ≤ max 0 (min acertos 10) := by omega
  have hhi : max 0 (min acertos 10) ≤ 10 := by omega
  split_ifs <;> first | rfl | omega

/-- C2: on the general table (any program other than the special one),
`calcula_bolsa` is monotonically non-decreasing on `[0, 24]`, and its
values there lie in `[0, 1]`. -/
theorem calcula_bolsa_general_monotone (t1 t2 : ℤ) (serie : Option String)
    (hs : serie ≠ some "1º ao 5º Ano")
    (h0 : 0 ≤ t1) (h12 : t1 ≤ t2) (h24 : t2 ≤ 24) :
    calcula_bolsa t1 serie ≤ calcula_bolsa t2 serie ∧
    0 ≤ calcula_bolsa t1 serie ∧ calcula_bolsa t1 serie ≤ 1 ∧
    0 ≤ calcula_bolsa t2 serie ∧ calcula_bolsa t2 serie ≤ 1 := by
  have key : ∀ i j : Fin 25, i ≤ j →
      calcula_bolsa (i.val : ℤ) none ≤ calcula_bolsa (j.val : ℤ) none ∧
      0 ≤ calcula_bolsa (i.val : ℤ) none ∧ calcula_bolsa (i.val : ℤ) none ≤ 1 := by
    with_unfolding_all decide
  rw [calcula_bolsa_of_ne_special t1 serie hs, calcula_bolsa_of_ne_special t2 serie hs]
  have h02 : 0 ≤ t2 := le_trans h0 h12
  obtain ⟨k1, e1⟩ : ∃ n : ℕ, (n : ℤ) = t1 := ⟨t1.toNat, Int.toNat_of_nonneg h0⟩
  obtain ⟨k2, e2⟩ : ∃ n : ℕ, (n : ℤ) = t2 := ⟨t2.toNat, Int.toNat_of_nonneg h02⟩
  subst e1
  subst e2
  have hk1 : k1 < 25 := by omega
  have hk2 : k2 < 25 := by omega
  have hij : (⟨k1, hk1⟩ : Fin 25) ≤ (⟨k2, hk2⟩ : Fin 25) := by
    simp only [Fin.mk_le_mk]
    omega
  have K1 := key ⟨k1, hk1⟩ ⟨k2, hk2⟩ hij
  have K2 := key ⟨k2, hk2⟩ ⟨k2, hk2⟩ le_rfl
  exact ⟨K1.1, K1.2.1, K1.2.2, K2.2.1, K2.2.2⟩

/-- Witness for `calcula_bolsa_general_monotone` at `t1 = 0`, `t2 = 24`,
program `none`. -/
theorem calcula_bolsa_general_monotone_witness :
    calcula_bolsa 0 none ≤ calcula_bolsa 24 none ∧
    0 ≤ calcula_bolsa 0 none ∧ calcula_bolsa 0 none ≤ 1 ∧
    0 ≤ calcula_bolsa 24 none ∧ calcula_bolsa 24 none ≤ 1 :=
  calcula_bolsa_general_monotone 0 24 none (by simp) (by norm_num) (by norm_num)
    (by norm_num)

/-- C3: on the general table, `calcula_bolsa` returns `0.30` for total 0,
`1.00` for total 24 and `0.50` for total 12. -/
theorem calcula_bolsa_general_values (serie : Option String)
    (hs : serie ≠ some "1º ao 5º Ano") :
    calcula_bolsa 0 serie = 0.30 ∧ calcula_bolsa 24 serie = 1.00 ∧
    calcula_bolsa 12 serie = 0.50 := by
  rw [calcula_bolsa_of_ne_special 0 serie hs, calcula_bolsa_of_ne_special 24 serie hs,
    calcula_bolsa_of_ne_special 12 serie hs]
  refine ⟨?_, ?_, ?_⟩ <;> with_unfolding_all decide

/-- Witness for `calcula_bolsa_general_values` at program `none`. -/
theorem calcula_bolsa_general_values_witness :
    calcula_bolsa 0 none = 0.30 ∧ calcula_bolsa 24 none = 1.00 ∧
    calcula_bolsa 12 none = 0.50 :=
  calcula_bolsa_general_values none (by simp)

/-- C4: for every program present in the tuition table with a positive base
13th-installment value, `precos_2026` returns exactly the
divide-then-markup-then-sum chain, rounded to two decimals at each derived
field. -/
theorem precos_2026_formula (s : String) (e : TuitionEntry)
    (he : lookupTuition s = some e) (hpos : 0 < e.parcela13) :
    precos_2026 s =
      { primeira_cota := round2 (e.parcela13 / 1.10),
        parcela_mensal := round2 (round2 (e.parcela13 / 1.10) * 1.093),
        anuidade := round2 (round2 (e.parcela13 / 1.10) +
          12 * round2 (round2 (e.parcela13 / 1.10) * 1.093)) } := by
  unfold precos_2026
  rw [he]
  dsimp only
  rw [if_neg (not_le.mpr hpos)]

/-- Witness for `precos_2026_formula` at the program `ESA`, together with
the concrete value of the resulting breakdown. -/
theorem precos_2026_formula_witness :
    lookupTuition "ESA" = some ⟨7145.00, 549.62⟩ ∧ (0 : ℚ) < 549.62 ∧
    precos_2026 "ESA" =
      { primeira_cota := round2 ((549.62 : ℚ) / 1.10),
        parcela_mensal := round2 (round2 ((549.62 : ℚ) / 1.10) * 1.093),
        anuidade := round2 (round2 ((549.62 : ℚ) / 1.10) +
          12 * round2 (round2 ((549.62 : ℚ) / 1.10) * 1.093)) } ∧
    precos_2026 "ESA" = ⟨499.65, 546.12, 7053.09⟩ :=
  ⟨by with_unfolding_all rfl, by norm_num,
   precos_2026_formula "ESA" ⟨7145.00, 549.62⟩ (by with_unfolding_all rfl)
     (by norm_num),
   precos_2026_ESA_eval⟩

/-- C5: for a program absent from the tuition table, or whose base value is
non-positive, `precos_2026` returns the all-zero breakdown (and, being a
total function, never fails). -/
theorem precos_2026_unpriced (s : String)
    (h : lookupTuition s = none ∨
      ∃ e, lookupTuition s = some e ∧ e.parcela13 ≤ 0) :
    precos_2026 s = ⟨0.0, 0.0, 0.0⟩ := by
  unfold precos_2026
  rcases h with h | ⟨e, he, hle⟩
  · rw [h]
  · rw [he]
    dsimp only
    rw [if_pos hle]

/-- Witness for `precos_2026_unpriced` at an unknown program name. -/
theorem precos_2026_unpriced_witness :
    lookupTuition "Robótica" = none ∧ precos_2026 "Robótica" = ⟨0.0, 0.0, 0.0⟩ :=
  ⟨by with_unfolding_all rfl,
   precos_2026_unpriced "Robótica" (Or.inl (by with_unfolding_all rfl))⟩

/-- C6: `calcula_valor_minimo` returns `anuidade * (1 - ceiling) / 12` when
both the program's annual total and the campus ceiling are positive and `0`
otherwise; in particular an unknown campus always yields `0`. -/
theorem calcula_valor_minimo_spec (unidade serie_modalidade : String) :
    (calcula_valor_minimo unidade serie_modalidade =
      if 0 < (precos_2026 serie_modalidade).anuidade ∧
          0 < (lookupCeiling unidade).getD 0 then
        (precos_2026 serie_modalidade).anuidade *
          (1 - (lookupCeiling unidade).getD 0) / 12
      else 0.0) ∧
    (lookupCeiling unidade = none →
      calcula_valor_minimo unidade serie_modalidade = 0.0) := by
  constructor
  · rfl
  · intro h
    unfold calcula_valor_minimo
    rw [h]
    norm_num

/-- Witness for `calcula_valor_minimo_spec`: a campus absent from the
ceiling table yields `0` even though the program `ESA` is priced. -/
theorem calcula_valor_minimo_spec_witness :
    lookupCeiling "PETROPOLIS" = none ∧
    (precos_2026 "ESA").anuidade = 7053.09 ∧
    calcula_valor_minimo "PETROPOLIS" "ESA" = 0.0 :=
  ⟨by with_unfolding_all rfl, by rw [precos_2026_ESA_eval],
   (calcula_valor_minimo_spec "PETROPOLIS" "ESA").2 (by with_unfolding_all rfl)⟩

/-- C7: applying a discount multiplies each monetary field by
`(1 - pct)`; hence discount `0` is the identity and discount `1` zeroes
every monetary field. -/
theorem apply_discount_spec (precos : Breakdown) (pct : ℚ) :
    apply_discount precos pct =
      ⟨precos.primeira_cota * (1 - pct), precos.parcela_mensal * (1 - pct),
        precos.anuidade * (1 - pct)⟩ ∧
    apply_discount precos 0 = precos ∧
    apply_discount precos 1 = ⟨0, 0, 0⟩ := by
  cases precos
  refine ⟨rfl, ?_, ?_⟩ <;> simp [apply_discount]

/-- One entry of the `updates` list passed to `batch_update_cells`: a cell
range in A1 notation and the values to write there. -/
structure CellUpdate where
  rng : String
  values : List (List String)
deriving DecidableEq

/-- The apostrophe-doubling of `ws.title.replace("'", "''")` in
`batch_update_cells`, on character lists. -/
def escChars : List Char → List Char
  | [] => []
  | c :: r => if c = aposC then aposC :: aposC :: escChars r else c :: escChars r

/-- The qualified range `f"'{sheet_title_safe}'!{rng}"` built by
`batch_update_cells` for a range with no sheet qualifier. -/
def qualifyRange (sheet_title_safe : String) (rng : String) : String :=
  String.mk (aposC :: sheet_title_safe.toList ++ aposC :: '!' :: rng.toList)

/-- The per-update loop of `batch_update_cells`: skip empty ranges, keep
ranges that already name a sheet, qualify the rest. -/
def fixUpdates (sheet_title_safe : String) : List CellUpdate → List CellUpdate
  | [] => []
  | u :: rest =>
    if u.rng = "" then fixUpdates sheet_title_safe rest
    else if u.rng.toList.contains '!' then
      { rng := u.rng, values := u.values } :: fixUpdates sheet_title_safe rest
    else
      { rng := qualifyRange sheet_title_safe u.rng, values := u.values } ::
        fixUpdates sheet_title_safe rest

/-- `batch_update_cells` from the source, modelled as the single batch
request it sends: `none` when no request is issued (the guard
`if not updates: return`), otherwise `some` of the fixed update list that
becomes the request body. -/
def batch_update_cells (ws_title : String) (updates : List CellUpdate) :
    Option (List CellUpdate) :=
  if updates = [] then none
  else
    let sheet_title_safe := String.mk (escChars ws_title.toList)
    some (fixUpdates sheet_title_safe updates)

/-- The range rewrite described by the spec: a range that already contains
`!` is left unchanged; otherwise it is prefixed with the worksheet title,
quoted and with every embedded apostrophe doubled. -/
def specRewriteRange (ws_title : String) (rng : String) : String :=
  if rng.toList.contains '!' then rng
  else qualifyRange (String.mk (escChars ws_title.toList)) rng

/-- C8: `batch_update_cells` sends no request for an empty update list and
otherwise sends one batch holding exactly the non-empty-range updates, each
with its range rewritten as the spec describes (sheet qualifier injected,
apostrophes in the title doubled). -/
theorem batch_update_cells_spec (ws_title : String) (updates : List CellUpdate) :
    batch_update_cells ws_title updates =
      (if updates = [] then none
       else some ((updates.filter (fun u => u.rng != "")).map
          (fun u => { rng := specRewriteRange ws_title u.rng,
                      values := u.values }))) ∧
    (batch_update_cells ws_title updates = none ↔ updates = []) := by
  have key : ∀ l : List CellUpdate,
      fixUpdates (String.mk (escChars ws_title.toList)) l =
        (l.filter (fun u => u.rng != "")).map
          (fun u => { rng := specRewriteRange ws_title u.rng,
                      values := u.values }) := by
    intro l
    induction l with
    | nil => rfl
    | cons u rest ih =>
      by_cases h1 : u.rng = ""
      · simpa [fixUpdates, h1, String.toList] using ih
      · by_cases h2 : '!' ∈ u.rng.data
        · simpa [fixUpdates, h1, h2, specRewriteRange, String.toList] using ih
        · simpa [fixUpdates, h1, h2, specRewriteRange, String.toList] using ih
  constructor
  · by_cases h : updates = []
    · simp [batch_update_cells, h]
    · simp only [batch_update_cells, if_neg h]
      rw [key]
  · by_cases h : updates = [] <;> simp [batch_update_cells, h]

/-- One sheet row, as the string-keyed record dict that
`get_all_records` yields. -/
abbrev SheetRow := List (String × String)

/-- `row.get(key)` on a record dict. -/
def rowGet (row : SheetRow) (key : String) : Option String :=
  (row.find? (fun p => p.1 == key)).map (fun p => p.2)

/-- The snapshot returned by `load_resultados_snapshot`: the row dicts and
the `REGISTRO_ID → row number` index. -/
structure Snapshot where
  rows : List SheetRow
  id_to_rownum : List (String × ℕ)
deriving DecidableEq

/-- The `id_to_rownum` comprehension of the source: rows are numbered from
2 (row 1 is the header) and rows with a missing or empty `REGISTRO_ID` are
skipped. -/
def buildIdToRownum (rows : List SheetRow) : List (String × ℕ) :=
  rows.enum.filterMap (fun p =>
    match rowGet p.2 "REGISTRO_ID" with
    | some v => if v = "" then none else some (v, p.1 + 2)
    | none => none)

/-- The error message `f"Faltam colunas em 'Resultados_Bolsao': ..."` of the
source, naming the missing columns. -/
def missingColumnsMsg (missing : List String) : String :=
  "Faltam colunas em " ++ aposS ++ "Resultados_Bolsao" ++ aposS ++ ": " ++
    String.intercalate ", " missing

/-- `load_resultados_snapshot` from the source, abstracted over the sheet
state: `hmapKeys` are the header names of `Resultados_Bolsao` and `records`
the row dicts that `get_all_records` returns.  A missing requested column
raises (`Except.error` models the `RuntimeError`). -/
def load_resultados_snapshot (hmapKeys : List String) (records : List SheetRow)
    (columns_needed : List String) : Except String Snapshot :=
  let missing := columns_needed.filter (fun c => !(hmapKeys.contains c))
  if missing ≠ [] then Except.error (missingColumnsMsg missing)
  else Except.ok { rows := records, id_to_rownum := buildIdToRownum records }

/-- The `aba_formulario` call site of the source: the `RuntimeError` is
caught, shown as a message, and an empty snapshot is used instead. -/
def snapshot_at_call_site (hmapKeys : List String) (records : List SheetRow)
    (columns_needed : List String) : Option String × Snapshot :=
  match load_resultados_snapshot hmapKeys records columns_needed with
  | Except.error e => (some e, { rows := [], id_to_rownum := [] })
  | Except.ok s => (none, s)

/-- C9: when any requested column is missing from the header map,
`load_resultados_snapshot` raises a configuration error whose message names
the missing columns (every requested-but-absent column is in the list the
message is built from), and the call site catches it, displays it and
proceeds with an empty snapshot. -/
theorem load_resultados_snapshot_missing (hmapKeys : List String)
    (records : List SheetRow) (columns_needed : List String)
    (h : columns_needed.filter (fun c => !(hmapKeys.contains c)) ≠ []) :
    load_resultados_snapshot hmapKeys records columns_needed =
      Except.error (missingColumnsMsg
        (columns_needed.filter (fun c => !(hmapKeys.contains c)))) ∧
    snapshot_at_call_site hmapKeys records columns_needed =
      (some (missingColumnsMsg
        (columns_needed.filter (fun c => !(hmapKeys.contains c)))),
       { rows := [], id_to_rownum := [] }) ∧
    ∀ c ∈ columns_needed, ¬ hmapKeys.contains c →
      c ∈ columns_needed.filter (fun c => !(hmapKeys.contains c)) := by
  refine ⟨?_, ?_, ?_⟩
  · unfold load_resultados_snapshot
    rw [if_pos h]
  · unfold snapshot_at_call_site load_resultados_snapshot
    rw [if_pos h]
  · intro c hc hnc
    simp only [List.mem_filter, Bool.not_eq_true']
    exact ⟨hc, by simpa using hnc⟩

/-- Witness for `load_resultados_snapshot_missing`: header has only
`REGISTRO_ID`, but `Nome do Aluno` is also requested. -/
theorem load_resultados_snapshot_missing_witness :
    load_resultados_snapshot ["REGISTRO_ID"] [] ["REGISTRO_ID", "Nome do Aluno"] =
      Except.error (missingColumnsMsg ["Nome do Aluno"]) ∧
    snapshot_at_call_site ["REGISTRO_ID"] [] ["REGISTRO_ID", "Nome do Aluno"] =
      (some (missingColumnsMsg ["Nome do Aluno"]), { rows := [], id_to_rownum := [] }) := by
  have key := load_resultados_snapshot_missing ["REGISTRO_ID"] []
    ["REGISTRO_ID", "Nome do Aluno"] (by with_unfolding_all decide)
  have hf : (["REGISTRO_ID", "Nome do Aluno"].filter
      (fun c => !(["REGISTRO_ID"].contains c))) = ["Nome do Aluno"] := by
    with_unfolding_all rfl
  rw [hf] at key
  exact ⟨key.1, key.2.1⟩

/-- The character of a decimal digit `d` (for `d < 10`). -/
def digitChar (d : ℕ) : Char := Char.ofNat (48 + d)

/-- Is `c` one of the characters `0`..`9`?  (The digit shape accepted by
Python `float`.) -/
def isDigitCh (c : Char) : Bool := decide (48 ≤ c.toNat ∧ c.toNat ≤ 57)

/-- Numeric value of a digit character. -/
def valCh (c : Char) : ℕ := c.toNat - 48

/-- Value of a big-endian digit string. -/
def natOfBE (cs : List Char) : ℕ := cs.foldl (fun a c => 10 * a + valCh c) 0

/-- Strip leading and trailing spaces (the whitespace tolerance of Python
`strip` and `float`, restricted to the space character). -/
def stripSp (l : List Char) : List Char :=
  ((l.dropWhile (fun c => c == ' ')).reverse.dropWhile (fun c => c == ' ')).reverse

/-- `s.replace("R$", "")` of the source: delete every (non-overlapping,
left-to-right) occurrence of the two-character substring. -/
def removeRS : List Char → List Char
  | [] => []
  | [c] => [c]
  | c1 :: c2 :: rest =>
    if c1 = 'R' ∧ c2 = '$' then removeRS rest
    else c1 :: removeRS (c2 :: rest)

/-- Fixed-point decimal parsing as done by Python `float` on strings of the
shape `digits[.digits]` (the only shape the currency round trip meets):
integer part, optional fraction part, at most one dot, at least one digit. -/
def floatCore (t : List Char) : Option ℚ :=
  let ip := t.takeWhile (fun c => c != '.')
  let rest := t.dropWhile (fun c => c != '.')
  let fp := rest.tail
  if ip.all isDigitCh && fp.all isDigitCh && (!ip.isEmpty || !fp.isEmpty) then
    some ((natOfBE ip : ℚ) + (natOfBE fp : ℚ) / (10 : ℚ) ^ fp.length)
  else none

/-- Python `float(s)` on decimal notation: surrounding spaces and an
optional sign, then `floatCore`.  (`none` models `ValueError`.) -/
def floatOfChars (l : List Char) : Option ℚ :=
  match stripSp l with
  | [] => none
  | c :: r =>
    if c = '-' then (floatCore r).map (fun q => -q)
    else if c = '+' then floatCore r
    else floatCore (c :: r)

/-- `parse_brl_to_float` from the source (string branch): strip, delete
`R$`, delete the thousands dots, turn the decimal comma into a dot, then
`float(...)`, with `0.0` on a parse failure. -/
def parse_brl_to_float (s : String) : ℚ :=
  let l1 := stripSp s.toList
  let l2 := removeRS l1
  let l3 := l2.filter (fun c => c != '.')
  let l4 := l3.map (fun c => if c = ',' then '.' else c)
  match floatOfChars l4 with
  | some q => q
  | none => 0

/-- Little-endian digit list rendered to characters with a dot inserted
after every third digit (the thousands grouping of `f"{v:,.2f}"`, with the
separator already swapped to the Brazilian dot).  `k` counts the digits
emitted since the last separator. -/
def groupedLE : ℕ → List ℕ → List Char
  | _, [] => []
  | k, d :: ds =>
    if k = 3 then '.' :: digitChar d :: groupedLE 1 ds
    else digitChar d :: groupedLE (k + 1) ds

/-- The integer part of the formatted currency string: the decimal digits
of `m` with dots grouping thousands (and `0` rendered as `"0"`). -/
def intChars (m : ℕ) : List Char :=
  if m = 0 then [digitChar 0] else (groupedLE 0 (Nat.digits 10 m)).reverse

/-- `format_currency` from the source on a non-negative amount of exactly
two decimals: the value `n / 100` rendered as `R$ 1.234,56` (the f-string
`f"R$ {v:,.2f}"` followed by the separator swap). -/
def format_currency (n : ℕ) : String :=
  String.mk ('R' :: '$' :: ' ' ::
    (intChars (n / 100) ++ ',' :: digitChar (n % 100 / 10) :: [digitChar (n % 100 % 10)]))

/-- Facts about digit characters, for `d < 10`. -/
theorem digitChar_props {d : ℕ} (h : d < 10) :
    valCh (digitChar d) = d ∧ isDigitCh (digitChar d) = true ∧
    digitChar d ≠ '.' ∧ digitChar d ≠ ',' ∧ digitChar d ≠ ' ' ∧
    digitChar d ≠ '-' ∧ digitChar d ≠ '+' ∧ digitChar d ≠ 'R' ∧
    digitChar d ≠ '$' := by
  interval_cases d <;> exact ⟨rfl, rfl, by decide, by decide, by decide,
    by decide, by decide, by decide, by decide⟩

/-- A list whose head does not satisfy `p` is untouched by `dropWhile`. -/
theorem dropWhile_eq_self_of (p : Char → Bool) (l : List Char)
    (h : ∀ a, l.head? = some a → p a = false) : l.dropWhile p = l := by
  cases l with
  | nil => rfl
  | cons a t => simp [List.dropWhile_cons, h a rfl]

/-- `stripSp` is the identity on lists with no leading or trailing space. -/
theorem stripSp_eq_self (l : List Char)
    (h1 : ∀ a, l.head? = some a → (a == ' ') = false)
    (h2 : ∀ a, l.getLast? = some a → (a == ' ') = false) :
    stripSp l = l := by
  unfold stripSp
  rw [dropWhile_eq_self_of _ _ h1,
    dropWhile_eq_self_of _ _ (fun a ha => h2 a (by rwa [List.head?_reverse] at ha)),
    List.reverse_reverse]

/-- `stripSp` drops a single leading space when the rest has no outer
spaces. -/
theorem stripSp_cons_space (l : List Char)
    (h1 : ∀ a, l.head? = some a → (a == ' ') = false)
    (h2 : ∀ a, l.getLast? = some a → (a == ' ') = false) :
    stripSp (' ' :: l) = l := by
  unfold stripSp
  rw [List.dropWhile_cons, if_pos (by decide),
    dropWhile_eq_self_of _ _ h1,
    dropWhile_eq_self_of _ _ (fun a ha => h2 a (by rwa [List.head?_reverse] at ha)),
    List.reverse_reverse]

/-- `removeRS` is the identity on lists not containing the character `R`. -/
theorem removeRS_eq_self (l : List Char) (h : 'R' ∉ l) : removeRS l = l := by
  induction l using removeRS.induct with
  | case1 => rfl
  | case2 c => rfl
  | case3 c1 c2 rest hc ih =>
    exact absurd (hc.1 ▸ List.mem_cons_self c1 (c2 :: rest)) h
  | case4 c1 c2 rest hc ih =>
    rw [removeRS, if_neg hc, ih (fun hm => h (List.mem_cons_of_mem c1 hm))]

/-- `takeWhile` stops exactly at the first failing element. -/
theorem takeWhile_middle (p : Char → Bool) (l1 : List Char) (b : Char)
    (l2 : List Char) (h1 : ∀ a ∈ l1, p a = true) (hb : p b = false) :
    (l1 ++ b :: l2).takeWhile p = l1 := by
  induction l1 with
  | nil => simp [List.takeWhile_cons, hb]
  | cons a t ih =>
    have ha : p a = true := h1 a (List.mem_cons_self a t)
    have ht : ∀ x ∈ t, p x = true := fun x hx => h1 x (List.mem_cons_of_mem a hx)
    simp [List.takeWhile_cons, ha, ih ht]

/-- `dropWhile` drops exactly up to the first failing element. -/
theorem dropWhile_middle (p : Char → Bool) (l1 : List Char) (b : Char)
    (l2 : List Char) (h1 : ∀ a ∈ l1, p a = true) (hb : p b = false) :
    (l1 ++ b :: l2).dropWhile p = b :: l2 := by
  induction l1 with
  | nil => simp [List.dropWhile_cons, hb]
  | cons a t ih =>
    have ha : p a = true := h1 a (List.mem_cons_self a t)
    have ht : ∀ x ∈ t, p x = true := fun x hx => h1 x (List.mem_cons_of_mem a hx)
    simp [List.dropWhile_cons, ha, ih ht]

/-- Every character emitted by `groupedLE` is a separator dot or a digit
character. -/
theorem groupedLE_chars : ∀ (ds : List ℕ) (k : ℕ) (c : Char),
    c ∈ groupedLE k ds → (∀ d ∈ ds, d < 10) →
    c = '.' ∨ ∃ d, d < 10 ∧ c = digitChar d := by
  intro ds
  induction ds with
  | nil => intro k c hc _; simp [groupedLE] at hc
  | cons d t ih =>
    intro k c hc h
    have hd : d < 10 := h d (List.mem_cons_self d t)
    have ht : ∀ x ∈ t, x < 10 := fun x hx => h x (List.mem_cons_of_mem d hx)
    rw [groupedLE] at hc
    by_cases hk : k = 3
    · rw [if_pos hk] at hc
      rcases List.mem_cons.mp hc with rfl | hc'
      · exact Or.inl rfl
      · rcases List.mem_cons.mp hc' with rfl | hc''
        · exact Or.inr ⟨d, hd, rfl⟩
        · exact ih 1 c hc'' ht
    · rw [if_neg hk] at hc
      rcases List.mem_cons.mp hc with rfl | hc'
      · exact Or.inr ⟨d, hd, rfl⟩
      · exact ih (k + 1) c hc' ht

/-- Removing the separator dots from `groupedLE` recovers the plain digit
characters. -/
theorem groupedLE_filter : ∀ (ds : List ℕ) (k : ℕ), (∀ d ∈ ds, d < 10) →
    (groupedLE k ds).filter (fun c => c != '.') = ds.map digitChar := by
  intro ds
  induction ds with
  | nil => intro k _; rfl
  | cons d t ih =>
    intro k h
    have hd : d < 10 := h d (List.mem_cons_self d t)
    have ht : ∀ x ∈ t, x < 10 := fun x hx => h x (List.mem_cons_of_mem d hx)
    have hne : (digitChar d != '.') = true := by
      simp only [bne_iff_ne, ne_eq]
      exact (digitChar_props hd).2.2.1
    rw [groupedLE]
    by_cases hk : k = 3
    · rw [if_pos hk]
      simp [List.filter_cons, hne, ih 1 ht]
    · rw [if_neg hk]
      simp [List.filter_cons, hne, ih (k + 1) ht]

/-- Reading back a reversed little-endian digit rendering with the
big-endian accumulator recovers `Nat.ofDigits`. -/
theorem natOfBE_rev_map (ds : List ℕ) (h : ∀ d ∈ ds, d < 10) :
    ∀ a : ℕ, List.foldl (fun acc c => 10 * acc + valCh c) a
      ((ds.map digitChar).reverse) = a * 10 ^ ds.length + Nat.ofDigits 10 ds := by
  induction ds with
  | nil => intro a; simp
  | cons d t ih =>
    intro a
    have hd : d < 10 := h d (List.mem_cons_self d t)
    have ht : ∀ x ∈ t, x < 10 := fun x hx => h x (List.mem_cons_of_mem d hx)
    simp only [List.map_cons, List.reverse_cons, List.foldl_append,
      List.foldl_cons, List.foldl_nil]
    rw [ih ht a, (digitChar_props hd).1, Nat.ofDigits_cons,
      List.length_cons, pow_succ]
    ring

/-- The integer-part rendering of the formatter: all characters are dots or
digits, and stripping the dots leaves a non-empty digit string whose value
is the rendered number. -/
theorem intChars_spec (m : ℕ) :
    (∀ c ∈ intChars m, c = '.' ∨ ∃ d, d < 10 ∧ c = digitChar d) ∧
    natOfBE ((intChars m).filter (fun c => c != '.')) = m ∧
    (intChars m).filter (fun c => c != '.') ≠ [] ∧
    (∀ c ∈ (intChars m).filter (fun c => c != '.'),
      ∃ d, d < 10 ∧ c = digitChar d) := by
  by_cases hm : m = 0
  · subst hm
    refine ⟨?_, by decide, by decide, ?_⟩
    · intro c hc
      simp [intChars] at hc
      exact Or.inr ⟨0, by norm_num, hc⟩
    · intro c hc
      simp [intChars] at hc
      rcases hc with ⟨hc, -⟩
      exact ⟨0, by norm_num, hc⟩
  · have hds : ∀ d ∈ Nat.digits 10 m, d < 10 :=
      fun d hd => Nat.digits_lt_base (by norm_num) hd
    have hdne : Nat.digits 10 m ≠ [] := Nat.digits_ne_nil_iff_ne_zero.mpr hm
    have hIC : intChars m = (groupedLE 0 (Nat.digits 10 m)).reverse := by
      rw [intChars, if_neg hm]
    have hfilter : (intChars m).filter (fun c => c != '.') =
        ((Nat.digits 10 m).map digitChar).reverse := by
      rw [hIC, List.filter_reverse, groupedLE_filter _ 0 hds]
    refine ⟨?_, ?_, ?_, ?_⟩
    · intro c hc
      rw [hIC, List.mem_reverse] at hc
      exact groupedLE_chars _ 0 c hc hds
    · rw [hfilter]
      exact (natOfBE_rev_map _ hds 0).trans (by simp [Nat.ofDigits_digits])
    · rw [hfilter]
      simp [hdne]
    · intro c hc
      rw [hfilter, List.mem_reverse, List.mem_map] at hc
      obtain ⟨d, hd, rfl⟩ := hc
      exact ⟨d, hds d hd, rfl⟩

/-- Evaluation of the float parser on the exact shape the cleaned currency
string takes: one leading space, a non-empty digit string, a dot, and two
digit characters. -/
theorem floatOfChars_currency (ICf : List Char) (d1 d0 : ℕ)
    (hd1 : d1 < 10) (hd0 : d0 < 10) (hne : ICf ≠ [])
    (hdig : ∀ c ∈ ICf, ∃ d, d < 10 ∧ c = digitChar d) :
    floatOfChars (' ' :: (ICf ++ '.' :: digitChar d1 :: [digitChar d0])) =
      some ((natOfBE ICf : ℚ) + ((10 * d1 + d0 : ℕ) : ℚ) / 100) := by
  obtain ⟨c0, tl, rfl⟩ : ∃ c0 tl, ICf = c0 :: tl := by
    cases ICf with
    | nil => exact absurd rfl hne
    | cons a t => exact ⟨a, t, rfl⟩
  obtain ⟨e0, he0, hc0⟩ := hdig c0 (List.mem_cons_self c0 tl)
  subst hc0
  unfold floatOfChars
  have hstrip : stripSp (' ' :: ((digitChar e0 :: tl) ++
      '.' :: digitChar d1 :: [digitChar d0])) =
      (digitChar e0 :: tl) ++ '.' :: digitChar d1 :: [digitChar d0] := by
    apply stripSp_cons_space
    · intro a ha
      rw [List.cons_append, List.head?_cons] at ha
      obtain rfl := Option.some.inj ha
      rw [beq_eq_false_iff_ne]
      exact (digitChar_props he0).2.2.2.2.1
    · intro a ha
      have he : ((digitChar e0 :: tl) ++ '.' :: digitChar d1 :: [digitChar d0]) =
          ((digitChar e0 :: tl) ++ ['.', digitChar d1]) ++ [digitChar d0] := by simp
      rw [he, List.getLast?_concat] at ha
      obtain rfl := Option.some.inj ha
      rw [beq_eq_false_iff_ne]
      exact (digitChar_props hd0).2.2.2.2.1
  rw [hstrip]
  simp only [List.cons_append]
  rw [if_neg (digitChar_props he0).2.2.2.2.2.1,
    if_neg (digitChar_props he0).2.2.2.2.2.2.1]
  rw [← List.cons_append]
  unfold floatCore
  have hall : ∀ a ∈ digitChar e0 :: tl, ((a != '.') = true) := by
    intro a ha
    obtain ⟨d, hd, rfl⟩ := hdig a ha
    exact bne_iff_ne.mpr (digitChar_props hd).2.2.1
  have hdot : (('.' : Char) != '.') = false := by decide
  rw [takeWhile_middle _ _ _ _ hall hdot, dropWhile_middle _ _ _ _ hall hdot]
  simp only [List.tail_cons]
  have hallDig : (digitChar e0 :: tl).all isDigitCh = true := by
    rw [List.all_eq_true]
    intro a ha
    obtain ⟨d, hd, rfl⟩ := hdig a ha
    exact (digitChar_props hd).2.1
  have hfpDig : ([digitChar d1, digitChar d0]).all isDigitCh = true := by
    rw [List.all_eq_true]
    intro a ha
    rcases List.mem_cons.mp ha with rfl | ha'
    · exact (digitChar_props hd1).2.1
    rcases List.mem_cons.mp ha' with rfl | ha''
    · exact (digitChar_props hd0).2.1
    · exact absurd ha'' (List.not_mem_nil a)
  rw [hallDig, hfpDig]
  simp only [Bool.true_and, List.isEmpty_cons, Bool.not_false, Bool.true_or,
    if_true]
  have hfp : natOfBE [digitChar d1, digitChar d0] = 10 * d1 + d0 := by
    simp [natOfBE, (digitChar_props hd1).1, (digitChar_props hd0).1]
  rw [hfp]
  norm_num

/-- C10: formatting a non-negative exact-two-decimal amount `n / 100` to
the Brazilian currency form and parsing it back is the identity. -/
theorem parse_format_roundtrip (n : ℕ) :
    parse_brl_to_float (format_currency n) = (n : ℚ) / 100 := by
  obtain ⟨hmemIC, hval, hneF, hdigF⟩ := intChars_spec (n / 100)
  have hd1 : n % 100 / 10 < 10 := by omega
  have hd0 : n % 100 % 10 < 10 := by omega
  have hL : (format_currency n).toList =
      'R' :: '$' :: ' ' :: (intChars (n / 100) ++
        ',' :: digitChar (n % 100 / 10) :: [digitChar (n % 100 % 10)]) := rfl
  have hA : stripSp ((format_currency n).toList) =
      'R' :: '$' :: ' ' :: (intChars (n / 100) ++
        ',' :: digitChar (n % 100 / 10) :: [digitChar (n % 100 % 10)]) := by
    rw [hL]
    apply stripSp_eq_self
    · intro a ha
      rw [List.head?_cons] at ha
      obtain rfl := Option.some.inj ha
      decide
    · intro a ha
      have he : ('R' :: '$' :: ' ' :: (intChars (n / 100) ++
          ',' :: digitChar (n % 100 / 10) :: [digitChar (n % 100 % 10)])) =
          ('R' :: '$' :: ' ' :: (intChars (n / 100) ++
            [',', digitChar (n % 100 / 10)])) ++ [digitChar (n % 100 % 10)] := by
        simp
      rw [he, List.getLast?_concat] at ha
      obtain rfl := Option.some.inj ha
      rw [beq_eq_false_iff_ne]
      exact (digitChar_props hd0).2.2.2.2.1
  have hnoR : 'R' ∉ ' ' :: (intChars (n / 100) ++
      ',' :: digitChar (n % 100 / 10) :: [digitChar (n % 100 % 10)]) := by
    intro hm
    rcases List.mem_cons.mp hm with h' | hm2
    · exact absurd h' (by decide)
    rcases List.mem_append.mp hm2 with hIC | htail
    · rcases hmemIC 'R' hIC with h' | ⟨d, hd, h'⟩
      · exact absurd h' (by decide)
      · exact (digitChar_props hd).2.2.2.2.2.2.2.1 h'.symm
    rcases List.mem_cons.mp htail with h' | htail2
    · exact absurd h' (by decide)
    rcases List.mem_cons.mp htail2 with h' | htail3
    · exact (digitChar_props hd1).2.2.2.2.2.2.2.1 h'.symm
    rcases List.mem_cons.mp htail3 with h' | htail4
    · exact (digitChar_props hd0).2.2.2.2.2.2.2.1 h'.symm
    · exact absurd htail4 (List.not_mem_nil 'R')
  have hB : removeRS ('R' :: '$' :: ' ' :: (intChars (n / 100) ++
      ',' :: digitChar (n % 100 / 10) :: [digitChar (n % 100 % 10)])) =
      ' ' :: (intChars (n / 100) ++
        ',' :: digitChar (n % 100 / 10) :: [digitChar (n % 100 % 10)]) := by
    rw [removeRS, if_pos ⟨rfl, rfl⟩]
    exact removeRS_eq_self _ hnoR
  have eD1 : (digitChar (n % 100 / 10) != '.') = true :=
    bne_iff_ne.mpr (digitChar_props hd1).2.2.1
  have eD0 : (digitChar (n % 100 % 10) != '.') = true :=
    bne_iff_ne.mpr (digitChar_props hd0).2.2.1
  have hC : (' ' :: (intChars (n / 100) ++
      ',' :: digitChar (n % 100 / 10) :: [digitChar (n % 100 % 10)])).filter
        (fun c => c != '.') =
      ' ' :: ((intChars (n / 100)).filter (fun c => c != '.') ++
        ',' :: digitChar (n % 100 / 10) :: [digitChar (n % 100 % 10)]) := by
    rw [List.filter_cons, if_pos (show ((' ' != '.') = true) by decide),
      List.filter_append,
      List.filter_cons, if_pos (show (((',' : Char) != '.') = true) by decide),
      List.filter_cons, if_pos eD1,
      List.filter_cons, if_pos eD0,
      List.filter_nil]
  have hICfmap : ((intChars (n / 100)).filter (fun c => c != '.')).map
      (fun c => if c = ',' then '.' else c) =
      (intChars (n / 100)).filter (fun c => c != '.') := by
    have hall : ∀ a ∈ (intChars (n / 100)).filter (fun c => c != '.'),
        (if a = ',' then '.' else a) = a := by
      intro a ha
      obtain ⟨d, hd, rfl⟩ := hdigF a ha
      exact if_neg (digitChar_props hd).2.2.2.1
    exact (List.map_congr_left hall).trans (List.map_id' _)
  have hD : (' ' :: ((intChars (n / 100)).filter (fun c => c != '.') ++
      ',' :: digitChar (n % 100 / 10) :: [digitChar (n % 100 % 10)])).map
        (fun c => if c = ',' then '.' else c) =
      ' ' :: ((intChars (n / 100)).filter (fun c => c != '.') ++
        '.' :: digitChar (n % 100 / 10) :: [digitChar (n % 100 % 10)]) := by
    simp only [List.map_cons, List.map_append, hICfmap, List.map_nil, if_true]
    rw [if_neg (show ¬((' ' : Char) = ',') by decide),
      if_neg (digitChar_props hd1).2.2.2.1, if_neg (digitChar_props hd0).2.2.2.1]
  have hE := floatOfChars_currency ((intChars (n / 100)).filter (fun c => c != '.'))
    (n % 100 / 10) (n % 100 % 10) hd1 hd0 hneF hdigF
  unfold parse_brl_to_float
  dsimp only
  rw [hA, hB, hC, hD, hE, hval]
  have h10 : 10 * (n % 100 / 10) + n % 100 % 10 = n % 100 := by omega
  rw [h10]
  have hsplit : (100 : ℚ) * ((n / 100 : ℕ) : ℚ) + ((n % 100 : ℕ) : ℚ) = (n : ℚ) := by
    exact_mod_cast Nat.div_add_mod n 100
  field_simp
  linarith

end Bolsao
